import Mathlib

/-!
Shallow embedding of the poll service of `PollingApp/src/polls` (the
`PollsService` backed by `NexaDBService`).  The external NexaDB client is
modelled as an in-memory store of two collections (`polls`, `votes`); a
`query(collection, filter, {limit})` call is modelled as `filter` followed by
`take limit`, and `create` appends a record, with the store assigning a fresh
numeric `_id`.  Id generation (`generateId`) and timestamps (`new Date()`)
are nondeterministic in the source, so the corresponding values are passed to
each operation as explicit parameters.  JavaScript objects used as
string-keyed count maps (`voteCounts`, `votePercentages`, `categoryCounts`)
are modelled as insertion-ordered association lists with in-place update,
matching JS object key semantics.
-/

namespace NexaPolls

deriving instance DecidableEq for Except

/-- `String.prototype.trim()`: removes leading and trailing whitespace.
Defined directly on the character list so that it is kernel-reducible. -/
def jsTrim (s : String) : String :=
  ⟨((s.data.dropWhile Char.isWhitespace).reverse.dropWhile
      Char.isWhitespace).reverse⟩

/-- JS-object read: first binding of the key, if any (`obj[k]`,
`undefined` modelled as `none`). -/
def objGet : List (String × Nat) → String → Option Nat
  | [], _ => none
  | (k', v') :: t, k => if k' = k then some v' else objGet t k

/-- JS-object write `obj[k] = v`: updates the existing binding in place, or
appends a new binding at the end (JS insertion order). -/
def objSet : List (String × Nat) → String → Nat → List (String × Nat)
  | [], k, v => [(k, v)]
  | (k', v') :: t, k, v =>
      if k' = k then (k', v) :: t else (k', v') :: objSet t k v

/-- Sum of the values of a JS-object count map
(`sum(counts.values())`). -/
def sumValues (m : List (String × Nat)) : Nat := (m.map Prod.snd).sum

/-- A record in the `polls` collection.  `_id` is the store-assigned record
identifier used by `client.update` / `client.delete`; `id` is the
application-level identifier from `generateId()`. -/
structure Poll where
  _id : Nat
  id : String
  question : String
  options : List String
  category : String
  created_at : String
  expires_at : Option String
  status : String
  closed_at : Option String
deriving Repr, DecidableEq

/-- A record in the `votes` collection. -/
structure Vote where
  _id : Nat
  id : String
  poll_id : String
  voter_id : String
  option : String
  voted_at : String
deriving Repr, DecidableEq

/-- The state of the external NexaDB store: the two collections, plus the
counter from which fresh `_id`s are assigned. -/
structure Store where
  polls : List Poll
  votes : List Vote
  nextId : Nat
deriving Repr, DecidableEq

/-- The two NestJS exception kinds thrown by `PollsService`:
`NotFoundException` (HTTP 404) and `BadRequestException` (HTTP 400), each
carrying its message. -/
inductive ServiceError where
  | notFound (msg : String)
  | badRequest (msg : String)
deriving Repr, DecidableEq

/-- `client.query('polls', { id }, { limit })`. -/
def queryPollsById (s : Store) (id : String) (limit : Nat) : List Poll :=
  (s.polls.filter (fun p => p.id == id)).take limit

/-- `client.query('votes', { poll_id }, { limit })`. -/
def queryVotesByPoll (s : Store) (pid : String) (limit : Nat) : List Vote :=
  (s.votes.filter (fun v => v.poll_id == pid)).take limit

/-- `client.query('votes', { poll_id, voter_id }, { limit })`. -/
def queryVotesByPollVoter (s : Store) (pid vid : String) (limit : Nat) :
    List Vote :=
  (s.votes.filter (fun v => v.poll_id == pid && v.voter_id == vid)).take limit

/-- `poll.options.forEach((opt) => (voteCounts[opt] = 0))`. -/
def initCounts (opts : List String) : List (String × Nat) :=
  opts.foldl (fun m o => objSet m o 0) []

/-- One iteration of the tally loop:
`if (voteCounts[vote.option] !== undefined) voteCounts[vote.option]++`. -/
def tallyStep (m : List (String × Nat)) (o : String) : List (String × Nat) :=
  match objGet m o with
  | some n => objSet m o (n + 1)
  | none => m

/-- The per-option vote count map computed by `findAll`, `findOne` and
`vote`: every declared option initialised to 0, then each vote whose option
has a counter increments it. -/
def tallyCounts (opts : List String) (votes : List Vote) :
    List (String × Nat) :=
  votes.foldl (fun m v => tallyStep m v.option) (initCounts opts)

/-- `Math.round((c / t) * 100)` for natural `c` and positive natural `t`,
idealising IEEE double arithmetic as exact rational arithmetic:
round-half-up of `100*c/t`, i.e. `⌊(100*c/t) + 1/2⌋ = (200*c + t) / (2*t)`
in natural division. -/
def roundPercent (c t : Nat) : Nat := (200 * c + t) / (2 * t)

/-- The `votePercentages` map of `findOne`:
`votePercentages[opt] = totalVotes > 0 ? Math.round((voteCounts[opt] / totalVotes) * 100) : 0`. -/
def percentagesMap (opts : List String) (counts : List (String × Nat))
    (total : Nat) : List (String × Nat) :=
  opts.foldl
    (fun m o =>
      objSet m o (if 0 < total then roundPercent ((objGet counts o).getD 0) total else 0))
    []

/-- One entry of the `polls` array returned by `findAll`. -/
structure PollSummary where
  poll : Poll
  total_votes : Nat
  vote_counts : List (String × Nat)
deriving Repr, DecidableEq

/-- `PollsService.findAll`: queries polls (limit 100), and for each poll its
votes (limit 1000), attaching `total_votes` and `vote_counts`. -/
def findAll (s : Store) : List PollSummary :=
  (s.polls.take 100).map fun p =>
    let votes := queryVotesByPoll s p.id 1000
    { poll := p
      total_votes := votes.length
      vote_counts := tallyCounts p.options votes }

/-- The poll object returned by `findOne`. -/
structure PollView where
  poll : Poll
  total_votes : Nat
  vote_counts : List (String × Nat)
  vote_percentages : List (String × Nat)
deriving Repr, DecidableEq

/-- `PollsService.findOne`: poll lookup (limit 1, `NotFoundException` when
absent), votes query (limit 1000), tally and percentages. -/
def findOne (s : Store) (id : String) : Except ServiceError PollView :=
  match queryPollsById s id 1 with
  | [] => .error (.notFound "Poll not found")
  | p :: _ =>
      let votes := queryVotesByPoll s id 1000
      let counts := tallyCounts p.options votes
      .ok { poll := p
            total_votes := votes.length
            vote_counts := counts
            vote_percentages := percentagesMap p.options counts votes.length }

/-- The request body of `POST /polls`. -/
structure CreatePollDto where
  question : String
  options : List String
  category : Option String
  expires_at : Option String
deriving Repr, DecidableEq

/-- The request body of `POST /polls/:id/vote`. -/
structure VoteDto where
  voter_id : String
  option : String
deriving Repr, DecidableEq

/-- `PollsService.create`.  JS falsiness of a string (`!question`) is
emptiness; the `typeof`/`Array.isArray` checks are subsumed by the types of
the embedding.  `category?.trim() || 'General'` defaults the category when
it is absent or trims to the empty string. -/
def create (s : Store) (dto : CreatePollDto) (newId now : String) :
    Except ServiceError (Poll × Store) :=
  if dto.question = "" then .error (.badRequest "Question is required")
  else if dto.options.length < 2 then
    .error (.badRequest "At least 2 options are required")
  else if dto.options.length > 10 then
    .error (.badRequest "Maximum 10 options allowed")
  else
    let poll : Poll :=
      { _id := s.nextId
        id := newId
        question := jsTrim dto.question
        options := dto.options.map jsTrim
        category :=
          match dto.category with
          | none => "General"
          | some c => if jsTrim c = "" then "General" else jsTrim c
        created_at := now
        expires_at := dto.expires_at
        status := "active"
        closed_at := none }
    .ok (poll, { s with polls := s.polls ++ [poll], nextId := s.nextId + 1 })

/-- The `results`-bearing response of `vote`. -/
structure VoteResult where
  poll_id : String
  voter_id : String
  option : String
  total_votes : Nat
  vote_counts : List (String × Nat)
deriving Repr, DecidableEq

/-- `PollsService.vote`: input checks, poll lookup, the three-stage gate
(active status, option validity, duplicate vote), then the append and the
re-tally over all votes of the poll (limit 1000). -/
def vote (s : Store) (id : String) (dto : VoteDto) (newId now : String) :
    Except ServiceError (VoteResult × Store) :=
  if dto.voter_id = "" then .error (.badRequest "voter_id is required")
  else if dto.option = "" then .error (.badRequest "option is required")
  else
    match queryPollsById s id 1 with
    | [] => .error (.notFound "Poll not found")
    | p :: _ =>
        if p.status ≠ "active" then .error (.badRequest "Poll is closed")
        else if dto.option ∉ p.options then
          .error (.badRequest
            ("Invalid option. Valid options: " ++ String.intercalate ", " p.options))
        else
          match queryVotesByPollVoter s id dto.voter_id 1 with
          | e :: _ => .error (.badRequest ("Already voted: " ++ e.option))
          | [] =>
              let v : Vote :=
                { _id := s.nextId
                  id := newId
                  poll_id := id
                  voter_id := dto.voter_id
                  option := dto.option
                  voted_at := now }
              let s' : Store :=
                { s with votes := s.votes ++ [v], nextId := s.nextId + 1 }
              let allVotes := queryVotesByPoll s' id 1000
              .ok ({ poll_id := id
                     voter_id := dto.voter_id
                     option := dto.option
                     total_votes := allVotes.length
                     vote_counts := tallyCounts p.options allVotes }, s')

/-- `PollsService.close`: poll lookup (`NotFoundException` when absent),
then `client.update` of the record with `{status: 'closed', closed_at}` —
there is no already-closed check in the source.  Returns the `poll_id`. -/
def close (s : Store) (id : String) (now : String) :
    Except ServiceError (String × Store) :=
  match queryPollsById s id 1 with
  | [] => .error (.notFound "Poll not found")
  | p :: _ =>
      .ok (id,
        { s with
          polls := s.polls.map fun q =>
            if q._id = p._id then { q with status := "closed", closed_at := some now }
            else q })

/-- `PollsService.remove`: poll lookup, votes query (limit 1000), a
`client.delete` per returned vote, then deletion of the poll record.
Returns `votes_removed`, the length of the queried vote list. -/
def remove (s : Store) (id : String) : Except ServiceError (Nat × Store) :=
  match queryPollsById s id 1 with
  | [] => .error (.notFound "Poll not found")
  | p :: _ =>
      let votes := queryVotesByPoll s id 1000
      let votes' :=
        votes.foldl (fun acc v => acc.filter (fun w => w._id ≠ v._id)) s.votes
      .ok (votes.length,
        { s with
          votes := votes'
          polls := s.polls.filter (fun q => q._id ≠ p._id) })

/-- `DEFAULT_CATEGORIES` from `dto/create-poll.dto.ts`. -/
def DEFAULT_CATEGORIES : List String :=
  ["General", "Technology", "Sports", "Entertainment", "Politics",
   "Food & Drinks", "Travel", "Health", "Education", "Business"]

/-- `p.category || 'General'`: the effective category of a poll, a missing
category (JS falsy, i.e. empty string) counting as `"General"`. -/
def effCat (p : Poll) : String :=
  if p.category = "" then "General" else p.category

/-- Helper for `jsDedup`: keeps the elements not yet seen, threading the
set of seen elements. -/
def jsDedupAux : List String → List String → List String
  | [], _ => []
  | a :: t, seen =>
      if a ∈ seen then jsDedupAux t seen else a :: jsDedupAux t (a :: seen)

/-- A JS `Set` built from a list: deduplication keeping the first
occurrence, preserving insertion order. -/
def jsDedup (l : List String) : List String := jsDedupAux l []

/-- The pure category-summary computation of `getCategories`, as a function
of the queried poll list: union (as JS `Set`s) of the default category list
with the observed categories, a zeroed count map over that union, one
increment per poll, and the final `{name, count}` pairs together with
`total_polls`. -/
def categorySummary (polls : List Poll) : List (String × Nat) × Nat :=
  let allCats := jsDedup (DEFAULT_CATEGORIES ++ jsDedup (polls.map effCat))
  let init := allCats.foldl (fun m c => objSet m c 0) []
  let counts :=
    polls.foldl
      (fun m p => objSet m (effCat p) ((objGet m (effCat p)).getD 0 + 1)) init
  (allCats.map fun name => (name, (objGet counts name).getD 0), polls.length)

/-- `PollsService.getCategories`: polls queried with limit 1000, then the
pure summary. -/
def getCategories (s : Store) : List (String × Nat) × Nat :=
  categorySummary (s.polls.take 1000)

/-- The state-changing caller-facing operations, for reasoning about
sequential operation sequences. -/
inductive Op where
  | createOp (dto : CreatePollDto) (newId now : String)
  | voteOp (id : String) (dto : VoteDto) (newId now : String)
  | closeOp (id : String) (now : String)
  | removeOp (id : String)
deriving Repr, DecidableEq

/-- Sequential execution of one operation: a thrown exception leaves the
store unchanged (every `throw` in the source precedes the corresponding
writes). -/
def step (s : Store) (op : Op) : Store :=
  match op with
  | .createOp dto newId now =>
      match create s dto newId now with
      | .ok (_, s') => s'
      | .error _ => s
  | .voteOp id dto newId now =>
      match vote s id dto newId now with
      | .ok (_, s') => s'
      | .error _ => s
  | .closeOp id now =>
      match close s id now with
      | .ok (_, s') => s'
      | .error _ => s
  | .removeOp id =>
      match remove s id with
      | .ok (_, s') => s'
      | .error _ => s

/-- A sequence of sequential operations. -/
def run (s : Store) (ops : List Op) : Store := ops.foldl step s

/-- At most one vote per `(poll_id, voter_id)` pair. -/
def atMostOneVote (s : Store) : Prop :=
  ∀ pid vid : String,
    (s.votes.filter (fun v => v.poll_id == pid && v.voter_id == vid)).length ≤ 1


/-! ### Concrete stores used as witnesses and counterexamples -/

/-- The empty store. -/
def emptyStore : Store := ⟨[], [], 0⟩

/-- A demonstration poll with two options. -/
def demoPoll : Poll :=
  ⟨0, "p1", "Pick one", ["A", "B"], "General", "t0", none, "active", none⟩

/-- A store holding `demoPoll` and one vote by each of two voters. -/
def demoStore : Store :=
  ⟨[demoPoll],
   [⟨1, "v1", "p1", "u1", "A", "t1"⟩, ⟨2, "v2", "p1", "u2", "B", "t2"⟩],
   3⟩

/-- A poll that is already closed. -/
def closedPoll : Poll :=
  ⟨0, "p2", "Pick one", ["A", "B"], "General", "t0", none, "closed", some "t1"⟩

/-- A store holding only the closed poll. -/
def closedStore : Store := ⟨[closedPoll], [], 1⟩

/-- The `i`-th of many votes on `demoPoll`, with pairwise distinct `_id`s. -/
def bigVote (i : Nat) : Vote := ⟨i + 1, "v", "p1", "u", "A", "t"⟩

/-- A store in which `demoPoll` has 1001 votes — more than the limit-1000
vote queries return. -/
def bigStore : Store := ⟨[demoPoll], (List.range 1001).map bigVote, 1002⟩

/-- The view `findOne` computes for `demoPoll` in `demoStore`. -/
def demoView : PollView :=
  { poll := demoPoll
    total_votes := 2
    vote_counts := [("A", 1), ("B", 1)]
    vote_percentages := [("A", 50), ("B", 50)] }

/-- A small operation sequence: create a poll, vote once, then attempt a
duplicate vote. -/
def demoOps : List Op :=
  [.createOp ⟨"Pick one", ["A", "B"], none, none⟩ "p1" "t0",
   .voteOp "p1" ⟨"u1", "A"⟩ "v1" "t1",
   .voteOp "p1" ⟨"u1", "B"⟩ "v2" "t2"]

/-- A store holding `demoPoll` with no votes. -/
def noVotesStore : Store := ⟨[demoPoll], [], 1⟩

/-- The view `findOne` computes for `demoPoll` in `noVotesStore`. -/
def noVotesView : PollView :=
  { poll := demoPoll
    total_votes := 0
    vote_counts := [("A", 0), ("B", 0)]
    vote_percentages := [("A", 0), ("B", 0)] }

/-- A vote whose option is not among `demoPoll`'s declared options. -/
def strayVote : Vote := ⟨9, "v9", "p1", "u9", "C", "t9"⟩

/-! ### Lemmas about the JS-object model -/

theorem objGet_objSet (m : List (String × Nat)) (k : String) (v : Nat)
    (k' : String) :
    objGet (objSet m k v) k' = if k' = k then some v else objGet m k' := by
  induction m with
  | nil =>
    simp only [objSet, objGet]
    by_cases h : k' = k
    · subst h; simp
    · simp [h, Ne.symm h]
  | cons a t ih =>
    obtain ⟨ka, va⟩ := a
    simp only [objSet]
    by_cases h1 : ka = k
    · subst h1
      simp only [if_pos rfl, objGet]
      by_cases h2 : ka = k'
      · subst h2; simp
      · simp [h2, Ne.symm h2]
    · simp only [if_neg h1, objGet]
      by_cases h2 : ka = k'
      · subst h2
        simp [objGet, h1]
      · simp [objGet, h1, h2, ih]

theorem sumValues_objSet_succ (m : List (String × Nat)) (k : String)
    (n : Nat) (h : objGet m k = some n) :
    sumValues (objSet m k (n + 1)) = sumValues m + 1 := by
  induction m with
  | nil => simp [objGet] at h
  | cons a t ih =>
    obtain ⟨ka, va⟩ := a
    by_cases h1 : ka = k
    · subst h1
      simp [objGet] at h
      subst h
      simp [objSet, sumValues]
      omega
    · simp [objGet, h1] at h
      have := ih h
      simp [objSet, h1, sumValues] at this ⊢
      omega

theorem objGet_foldl_objSet (f : String → Nat) (opts : List String)
    (m0 : List (String × Nat)) (k : String) :
    objGet (opts.foldl (fun m o => objSet m o (f o)) m0) k =
      if k ∈ opts then some (f k) else objGet m0 k := by
  induction opts generalizing m0 with
  | nil => simp
  | cons o rest ih =>
    simp only [List.foldl_cons, ih, objGet_objSet, List.mem_cons]
    by_cases h1 : k ∈ rest
    · simp [h1]
    · by_cases h2 : k = o <;> simp [h1, h2]

theorem objGet_initCounts (opts : List String) (k : String) :
    objGet (initCounts opts) k = if k ∈ opts then some 0 else none := by
  simpa [initCounts] using objGet_foldl_objSet (fun _ => 0) opts [] k

theorem objGet_percentagesMap (opts : List String)
    (counts : List (String × Nat)) (total : Nat) (k : String) :
    objGet (percentagesMap opts counts total) k =
      if k ∈ opts then
        some (if 0 < total then roundPercent ((objGet counts k).getD 0) total else 0)
      else none := by
  simpa [percentagesMap] using
    objGet_foldl_objSet
      (fun o => if 0 < total then roundPercent ((objGet counts o).getD 0) total else 0)
      opts [] k

theorem objGet_tallyStep_isSome (m : List (String × Nat)) (o k : String) :
    (objGet (tallyStep m o) k).isSome = (objGet m k).isSome := by
  unfold tallyStep
  cases h : objGet m o with
  | none => rfl
  | some n =>
    rw [objGet_objSet]
    by_cases h2 : k = o
    · subst h2; simp [h]
    · simp [h2]

theorem objGet_foldl_tallyStep_isSome (votes : List Vote)
    (m : List (String × Nat)) (k : String) :
    (objGet (votes.foldl (fun m v => tallyStep m v.option) m) k).isSome =
      (objGet m k).isSome := by
  induction votes generalizing m with
  | nil => simp
  | cons w t ih => simp [List.foldl_cons, ih, objGet_tallyStep_isSome]

theorem objGet_tallyCounts_isSome (opts : List String) (votes : List Vote)
    (k : String) :
    (objGet (tallyCounts opts votes) k).isSome = (k ∈ opts : Bool) := by
  unfold tallyCounts
  rw [objGet_foldl_tallyStep_isSome, objGet_initCounts]
  by_cases h : k ∈ opts <;> simp [h]

theorem mem_objSet (m : List (String × Nat)) (k : String) (v : Nat) :
    ∀ p ∈ objSet m k v, p ∈ m ∨ p = (k, v) := by
  induction m with
  | nil => simp [objSet]
  | cons a t ih =>
    obtain ⟨ka, va⟩ := a
    simp only [objSet]
    by_cases h1 : ka = k
    · subst h1
      simp only [if_pos rfl]
      intro p hp
      rcases List.mem_cons.1 hp with h | h
      · right; exact h
      · left; exact List.mem_cons_of_mem _ h
    · simp only [if_neg h1]
      intro p hp
      rcases List.mem_cons.1 hp with h | h
      · left; exact h ▸ List.mem_cons_self _ _
      · rcases ih p h with h2 | h2
        · left; exact List.mem_cons_of_mem _ h2
        · right; exact h2

theorem sumValues_eq_zero (m : List (String × Nat))
    (h : ∀ p ∈ m, p.2 = 0) : sumValues m = 0 := by
  unfold sumValues
  apply List.sum_eq_zero
  intro x hx
  obtain ⟨p, hp, rfl⟩ := List.mem_map.1 hx
  exact h p hp

theorem initCounts_values_zero (opts : List String) :
    ∀ p ∈ initCounts opts, p.2 = 0 := by
  unfold initCounts
  suffices h : ∀ (opts : List String) (m0 : List (String × Nat)),
      (∀ p ∈ m0, p.2 = 0) →
      ∀ p ∈ opts.foldl (fun m o => objSet m o 0) m0, p.2 = 0 by
    exact h opts [] (by simp)
  intro opts
  induction opts with
  | nil => intro m0 h0; simpa using h0
  | cons o rest ih =>
    intro m0 h0
    simp only [List.foldl_cons]
    apply ih
    intro p hp
    rcases mem_objSet m0 o 0 p hp with h | h
    · exact h0 p h
    · simp [h]

theorem sumValues_initCounts (opts : List String) :
    sumValues (initCounts opts) = 0 :=
  sumValues_eq_zero _ (initCounts_values_zero opts)

theorem sumValues_foldl_tallyStep (votes : List Vote)
    (m : List (String × Nat))
    (h : ∀ v ∈ votes, (objGet m v.option).isSome = true) :
    sumValues (votes.foldl (fun m v => tallyStep m v.option) m) =
      sumValues m + votes.length := by
  induction votes generalizing m with
  | nil => simp
  | cons w t ih =>
    have hw : (objGet m w.option).isSome = true := h w (List.mem_cons_self _ _)
    obtain ⟨n, hn⟩ := Option.isSome_iff_exists.1 hw
    have hstep : tallyStep m w.option = objSet m w.option (n + 1) := by
      unfold tallyStep
      rw [hn]
    rw [List.foldl_cons, hstep]
    have hrest : ∀ v ∈ t, (objGet (objSet m w.option (n + 1)) v.option).isSome = true := by
      intro v hv
      have := objGet_tallyStep_isSome m w.option v.option
      rw [hstep] at this
      rw [this]
      exact h v (List.mem_cons_of_mem _ hv)
    rw [ih _ hrest, sumValues_objSet_succ m w.option n hn]
    simp only [List.length_cons]
    omega

theorem sumValues_tallyCounts (opts : List String) (votes : List Vote)
    (h : ∀ v ∈ votes, v.option ∈ opts) :
    sumValues (tallyCounts opts votes) = votes.length := by
  unfold tallyCounts
  have hk : ∀ v ∈ votes, (objGet (initCounts opts) v.option).isSome = true := by
    intro v hv
    rw [objGet_initCounts]
    simp [h v hv]
  rw [sumValues_foldl_tallyStep votes _ hk, sumValues_initCounts]
  omega

/-! ### List lemmas for the vote-deletion loop of `remove` -/

theorem foldl_delete_eq_filter_all (taken : List Vote) (l : List Vote) :
    taken.foldl (fun acc v => acc.filter (fun w => w._id ≠ v._id)) l =
      l.filter (fun w => taken.all (fun v => w._id ≠ v._id)) := by
  induction taken generalizing l with
  | nil => simp
  | cons v vs ih =>
    rw [List.foldl_cons, ih, List.filter_filter]
    apply List.filter_congr
    intro w _
    simp [List.all_cons, Bool.and_comm]

theorem filter_all_take_eq_drop (l : List Vote) (n : Nat)
    (h : (l.map Vote._id).Nodup) :
    l.filter (fun w => (l.take n).all (fun v => w._id ≠ v._id)) = l.drop n := by
  induction l generalizing n with
  | nil => simp
  | cons a t ih =>
    rw [List.map_cons, List.nodup_cons] at h
    obtain ⟨ha, ht⟩ := h
    cases n with
    | zero => simp
    | succ n =>
      rw [List.take_succ_cons, List.filter_cons, List.drop_succ_cons]
      have hhead : ((a :: t.take n).all (fun v => a._id ≠ v._id)) = false := by
        simp [List.all_cons]
      rw [hhead]
      have hcongr : t.filter (fun w => (a :: t.take n).all (fun v => w._id ≠ v._id)) =
          t.filter (fun w => (t.take n).all (fun v => w._id ≠ v._id)) := by
        apply List.filter_congr
        intro w hw
        have hne : w._id ≠ a._id := by
          intro he
          exact ha (he ▸ List.mem_map_of_mem Vote._id hw)
        simp [List.all_cons, hne]
      simp only [if_neg (by simp : ¬(false = true))]
      rw [hcongr, ih n ht]

theorem filter_all_self_filter_eq_nil (l : List Vote) (p : Vote → Bool) :
    (l.filter (fun w => (l.filter p).all (fun v => w._id ≠ v._id))).filter p = [] := by
  rw [List.filter_eq_nil_iff]
  intro a ha hpa
  have h1 : a ∈ l := (List.mem_filter.1 ha).1
  have h2 := (List.mem_filter.1 ha).2
  have h3 : a ∈ l.filter p := List.mem_filter.2 ⟨h1, hpa⟩
  have := List.all_eq_true.1 h2 a h3
  simp at this

/-! ### Lemmas about `jsDedup` and the category count fold -/

theorem mem_jsDedupAux (l : List String) :
    ∀ (seen : List String) (x : String),
      x ∈ jsDedupAux l seen ↔ x ∈ l ∧ x ∉ seen := by
  induction l with
  | nil => simp [jsDedupAux]
  | cons a t ih =>
    intro seen x
    simp only [jsDedupAux]
    by_cases hmem : a ∈ seen
    · rw [if_pos hmem, ih]
      constructor
      · rintro ⟨h1, h2⟩
        exact ⟨List.mem_cons_of_mem _ h1, h2⟩
      · rintro ⟨h1, h2⟩
        rcases List.mem_cons.1 h1 with rfl | h1
        · exact absurd hmem h2
        · exact ⟨h1, h2⟩
    · rw [if_neg hmem]
      constructor
      · intro hx
        rcases List.mem_cons.1 hx with rfl | hx
        · exact ⟨List.mem_cons_self _ _, hmem⟩
        · have := (ih _ _).1 hx
          refine ⟨List.mem_cons_of_mem _ this.1,
            fun hc => this.2 (List.mem_cons_of_mem _ hc)⟩
      · rintro ⟨h1, h2⟩
        rcases List.mem_cons.1 h1 with rfl | h1
        · exact List.mem_cons_self _ _
        · by_cases hxa : x = a
          · subst hxa; exact List.mem_cons_self _ _
          · exact List.mem_cons_of_mem _
              ((ih _ _).2 ⟨h1, by simp [h2, hxa]⟩)

theorem mem_jsDedup (l : List String) (x : String) :
    x ∈ jsDedup l ↔ x ∈ l := by
  rw [jsDedup, mem_jsDedupAux]
  simp

theorem objGet_foldl_incr (polls : List Poll) (m0 : List (String × Nat))
    (k : String) :
    objGet
        (polls.foldl
          (fun m p => objSet m (effCat p) ((objGet m (effCat p)).getD 0 + 1)) m0)
        k =
      if (objGet m0 k).isSome = true ∨ k ∈ polls.map effCat then
        some ((objGet m0 k).getD 0 + (polls.map effCat).count k)
      else none := by
  induction polls generalizing m0 with
  | nil =>
    cases h : objGet m0 k <;> simp [h]
  | cons p rest ih =>
    rw [List.foldl_cons, ih]
    by_cases hk : k = effCat p
    · subst hk
      rw [objGet_objSet]
      simp only [if_pos rfl, List.map_cons, List.mem_cons]
      rw [if_pos (Or.inl (by simp)), if_pos (by simp)]
      rw [List.count_cons_self]
      cases h0 : objGet m0 (effCat p) <;> simp [h0] <;> omega
    · rw [objGet_objSet, if_neg hk]
      simp only [List.map_cons, List.mem_cons]
      rw [List.count_cons_of_ne hk]
      by_cases hc : (objGet m0 k).isSome = true ∨ k ∈ rest.map effCat
      · rw [if_pos hc, if_pos (by tauto)]
      · rw [if_neg hc, if_neg (by tauto)]

/-! ### Inversion lemmas for the service operations -/

theorem create_ok_inv {s : Store} {dto : CreatePollDto} {newId now : String}
    {p : Poll} {s' : Store} (h : create s dto newId now = .ok (p, s')) :
    s'.votes = s.votes ∧ s'.polls = s.polls ++ [p] := by
  unfold create at h
  split_ifs at h
  simp only [Except.ok.injEq, Prod.mk.injEq] at h
  obtain ⟨rfl, rfl⟩ := h
  exact ⟨rfl, rfl⟩

theorem close_ok_inv {s : Store} {id now : String} {r : String} {s' : Store}
    (h : close s id now = .ok (r, s')) : s'.votes = s.votes := by
  unfold close at h
  cases hq : queryPollsById s id 1 with
  | nil => rw [hq] at h; cases h
  | cons p ps =>
    rw [hq] at h
    simp only [Except.ok.injEq, Prod.mk.injEq] at h
    obtain ⟨-, rfl⟩ := h
    rfl

theorem remove_ok_inv {s : Store} {id : String} {n : Nat} {s' : Store}
    (h : remove s id = .ok (n, s')) :
    ∃ p ps, queryPollsById s id 1 = p :: ps ∧
      n = (queryVotesByPoll s id 1000).length ∧
      s'.votes = s.votes.filter
        (fun w => (queryVotesByPoll s id 1000).all (fun v => w._id ≠ v._id)) ∧
      s'.polls = s.polls.filter (fun q => q._id ≠ p._id) := by
  unfold remove at h
  cases hq : queryPollsById s id 1 with
  | nil => rw [hq] at h; cases h
  | cons p ps =>
    rw [hq] at h
    simp only [Except.ok.injEq, Prod.mk.injEq] at h
    obtain ⟨rfl, rfl⟩ := h
    exact ⟨p, ps, rfl, rfl, foldl_delete_eq_filter_all _ _, rfl⟩

theorem vote_ok_inv {s : Store} {id : String} {dto : VoteDto}
    {newId now : String} {r : VoteResult} {s' : Store}
    (h : vote s id dto newId now = .ok (r, s')) :
    ∃ p ps, queryPollsById s id 1 = p :: ps ∧
      p.status = "active" ∧ dto.option ∈ p.options ∧
      queryVotesByPollVoter s id dto.voter_id 1 = [] ∧
      s'.votes = s.votes ++
        [{ _id := s.nextId, id := newId, poll_id := id,
           voter_id := dto.voter_id, option := dto.option, voted_at := now }] ∧
      s'.polls = s.polls := by
  unfold vote at h
  split_ifs at h with h1 h2
  cases hq : queryPollsById s id 1 with
  | nil => rw [hq] at h; cases h
  | cons p ps =>
    rw [hq] at h
    dsimp only at h
    by_cases hst : p.status ≠ "active"
    · rw [if_pos hst] at h; cases h
    · rw [if_neg hst] at h
      push_neg at hst
      by_cases hop : dto.option ∉ p.options
      · rw [if_pos hop] at h; cases h
      · rw [if_neg hop] at h
        push_neg at hop
        cases he : queryVotesByPollVoter s id dto.voter_id 1 with
        | cons e es => rw [he] at h; cases h
        | nil =>
          rw [he] at h
          simp only [Except.ok.injEq, Prod.mk.injEq] at h
          obtain ⟨-, rfl⟩ := h
          exact ⟨p, ps, rfl, hst, hop, rfl, rfl, rfl⟩

/-! ### Preservation of the one-vote-per-voter invariant -/

theorem step_preserves_atMostOneVote (s : Store) (op : Op)
    (h : atMostOneVote s) : atMostOneVote (step s op) := by
  cases op with
  | createOp dto newId now =>
    dsimp only [step]
    cases hc : create s dto newId now with
    | error e => exact h
    | ok r =>
      obtain ⟨p, s'⟩ := r
      intro pid vid
      rw [(create_ok_inv hc).1]
      exact h pid vid
  | closeOp id now =>
    dsimp only [step]
    cases hc : close s id now with
    | error e => exact h
    | ok r =>
      obtain ⟨rr, s'⟩ := r
      intro pid vid
      rw [close_ok_inv hc]
      exact h pid vid
  | removeOp id =>
    dsimp only [step]
    cases hc : remove s id with
    | error e => exact h
    | ok r =>
      obtain ⟨n, s'⟩ := r
      obtain ⟨p, ps, -, -, hv, -⟩ := remove_ok_inv hc
      intro pid vid
      calc (s'.votes.filter
              (fun v => v.poll_id == pid && v.voter_id == vid)).length
          ≤ (s.votes.filter
              (fun v => v.poll_id == pid && v.voter_id == vid)).length := by
            apply List.Sublist.length_le
            rw [hv]
            exact (List.filter_sublist s.votes).filter _
        _ ≤ 1 := h pid vid
  | voteOp id dto newId now =>
    dsimp only [step]
    cases hc : vote s id dto newId now with
    | error e => exact h
    | ok r =>
      obtain ⟨rr, s'⟩ := r
      obtain ⟨p, ps, -, -, -, hdup, hv, -⟩ := vote_ok_inv hc
      have hnodup : s.votes.filter
          (fun v => v.poll_id == id && v.voter_id == dto.voter_id) = [] := by
        unfold queryVotesByPollVoter at hdup
        rcases List.take_eq_nil_iff.1 hdup with h1 | h1
        · cases h1
        · exact h1
      intro pid vid
      rw [hv, List.filter_append]
      by_cases hm : pid = id ∧ vid = dto.voter_id
      · obtain ⟨rfl, rfl⟩ := hm
        rw [hnodup]
        simp
      · have hone : (List.filter
            (fun v => v.poll_id == pid && v.voter_id == vid)
            ([{ _id := s.nextId, id := newId, poll_id := id,
                voter_id := dto.voter_id, option := dto.option,
                voted_at := now }] : List Vote)) = [] := by
          have hnot : ¬(id = pid ∧ dto.voter_id = vid) := by
            intro hc2
            exact hm ⟨hc2.1.symm, hc2.2.symm⟩
          by_cases hid : id = pid
          · have h2 : dto.voter_id ≠ vid := fun h2 => hnot ⟨hid, h2⟩
            simp [hid, h2]
          · simp [hid]
        rw [hone, List.append_nil]
        exact h pid vid

theorem run_preserves_atMostOneVote (s : Store) (ops : List Op)
    (h : atMostOneVote s) : atMostOneVote (run s ops) := by
  induction ops generalizing s with
  | nil => exact h
  | cons op rest ih => exact ih _ (step_preserves_atMostOneVote s op h)

/-! ### Claim theorems -/

/-- C1: for every poll and every set of votes recorded for it (every
recorded vote carries one of the poll's declared options, which the vote
gate guarantees at append time), the tally attached by `findOne` /
`findAll` as `vote_counts` and `total_votes` satisfies
`sum(counts.values()) == total == number of votes fetched for that
poll`. -/
theorem tally_sum_eq_total_votes (s : Store) :
    (∀ id r, findOne s id = .ok r →
       (∀ v ∈ queryVotesByPoll s id 1000, v.option ∈ r.poll.options) →
       sumValues r.vote_counts = r.total_votes ∧
       r.total_votes = (queryVotesByPoll s id 1000).length) ∧
    (∀ e ∈ findAll s,
       (∀ v ∈ queryVotesByPoll s e.poll.id 1000, v.option ∈ e.poll.options) →
       sumValues e.vote_counts = e.total_votes ∧
       e.total_votes = (queryVotesByPoll s e.poll.id 1000).length) := by
  constructor
  · intro id r h hvalid
    unfold findOne at h
    cases hq : queryPollsById s id 1 with
    | nil => rw [hq] at h; cases h
    | cons p ps =>
      rw [hq] at h
      simp only [Except.ok.injEq] at h
      subst h
      exact ⟨sumValues_tallyCounts _ _ hvalid, rfl⟩
  · intro e he hvalid
    unfold findAll at he
    obtain ⟨p, hp, rfl⟩ := List.mem_map.1 he
    exact ⟨sumValues_tallyCounts _ _ hvalid, rfl⟩

/-- Witness for C1 at `demoStore`. -/
theorem tally_sum_eq_total_votes_witness :
    sumValues demoView.vote_counts = demoView.total_votes ∧
    demoView.total_votes = (queryVotesByPoll demoStore "p1" 1000).length :=
  (tally_sum_eq_total_votes demoStore).1 "p1" demoView (by decide) (by decide)

/-- C2: after the poll is found, the vote gate checks in order: not-active
fails with "Poll is closed"; an option outside `poll.options` fails with
the invalid-option message; an existing vote by the voter on the poll
fails with "Already voted: <prior option>"; only otherwise is a vote
record constructed and appended.  All three failures are
`BadRequestException`s (HTTP 400) in the source. -/
theorem vote_gate_order (s : Store) (id : String) (dto : VoteDto)
    (newId now : String) (p : Poll)
    (hv : dto.voter_id ≠ "") (ho : dto.option ≠ "")
    (hp : queryPollsById s id 1 = [p]) :
    (p.status ≠ "active" →
       vote s id dto newId now = .error (.badRequest "Poll is closed")) ∧
    (p.status = "active" → dto.option ∉ p.options →
       vote s id dto newId now = .error (.badRequest
         ("Invalid option. Valid options: " ++
           String.intercalate ", " p.options))) ∧
    (∀ e rest, p.status = "active" → dto.option ∈ p.options →
       queryVotesByPollVoter s id dto.voter_id 1 = e :: rest →
       vote s id dto newId now =
         .error (.badRequest ("Already voted: " ++ e.option))) ∧
    (p.status = "active" → dto.option ∈ p.options →
       queryVotesByPollVoter s id dto.voter_id 1 = [] →
       ∃ r s', vote s id dto newId now = .ok (r, s') ∧
         s'.votes = s.votes ++
           [{ _id := s.nextId, id := newId, poll_id := id,
              voter_id := dto.voter_id, option := dto.option,
              voted_at := now }] ∧
         s'.polls = s.polls) := by
  unfold vote
  rw [if_neg hv, if_neg ho, hp]
  dsimp only
  refine ⟨fun hst => ?_, fun hst hop => ?_,
    fun e rest hst hop he => ?_, fun hst hop he => ?_⟩
  · rw [if_pos hst]
  · rw [if_neg (by simp [hst]), if_pos hop]
  · rw [if_neg (by simp [hst]), if_neg (by simp [hop]), he]
  · rw [if_neg (by simp [hst]), if_neg (by simp [hop]), he]
    exact ⟨_, _, rfl, rfl, rfl⟩

/-- Witness for C2: a fresh voter on the active `demoPoll` passes the gate
and the vote is appended. -/
theorem vote_gate_order_witness :
    ∃ r s', vote demoStore "p1" ⟨"u3", "A"⟩ "v9" "t9" = .ok (r, s') ∧
      s'.votes = demoStore.votes ++
        [{ _id := demoStore.nextId, id := "v9", poll_id := "p1",
           voter_id := "u3", option := "A", voted_at := "t9" }] ∧
      s'.polls = demoStore.polls :=
  (vote_gate_order demoStore "p1" ⟨"u3", "A"⟩ "v9" "t9" demoPoll
    (by decide) (by decide) (by decide)).2.2.2 (by decide) (by decide)
    (by decide)

/-- C3: starting from a state in which every `(poll_id, voter_id)` pair has
at most one vote, any sequence of sequential operations preserves that
invariant; a vote attempt by a voter who already has a vote on the poll
never succeeds and leaves the store unchanged. -/
theorem one_vote_per_voter_invariant (s : Store) (ops : List Op)
    (h : atMostOneVote s) :
    atMostOneVote (run s ops) ∧
    (∀ id dto newId now,
       s.votes.filter
         (fun v => v.poll_id == id && v.voter_id == dto.voter_id) ≠ [] →
       (∀ r, vote s id dto newId now ≠ .ok r) ∧
       step s (.voteOp id dto newId now) = s) := by
  refine ⟨run_preserves_atMostOneVote s ops h, ?_⟩
  intro id dto newId now hdup
  have hfail : ∀ r, vote s id dto newId now ≠ .ok r := by
    intro r hr
    obtain ⟨rr, s'⟩ := r
    obtain ⟨p, ps, -, -, -, hq, -, -⟩ := vote_ok_inv hr
    unfold queryVotesByPollVoter at hq
    rcases List.take_eq_nil_iff.1 hq with h1 | h1
    · cases h1
    · exact hdup h1
  refine ⟨hfail, ?_⟩
  dsimp only [step]
  cases hc : vote s id dto newId now with
  | error e => rfl
  | ok r => exact absurd hc (hfail r)

/-- Witness for C3: running create + vote + duplicate-vote from the empty
store keeps the invariant. -/
theorem one_vote_per_voter_invariant_witness :
    atMostOneVote emptyStore ∧ atMostOneVote (run emptyStore demoOps) :=
  have h : atMostOneVote emptyStore := by
    intro pid vid
    simp [atMostOneVote, emptyStore]
  ⟨h, (one_vote_per_voter_invariant emptyStore demoOps h).1⟩

/-- C4 counterexample: `close` has no already-closed check — closing the
already-closed `closedPoll` succeeds instead of failing with a conflict
error. -/
theorem close_already_closed_succeeds :
    closedPoll.status = "closed" ∧ (close closedStore "p2" "t2").isOk = true := by
  decide

/-- C4 (amended): `close` fails with `NotFoundException` when no poll with
the id exists; otherwise — including when the poll is already closed — it
succeeds, setting `status` to closed and `closed_at` to the current
time. -/
theorem close_spec (s : Store) (id now : String) :
    (queryPollsById s id 1 = [] →
       close s id now = .error (.notFound "Poll not found")) ∧
    (∀ p ps, queryPollsById s id 1 = p :: ps →
       ∃ s', close s id now = .ok (id, s') ∧
         (∀ q ∈ s'.polls, q._id = p._id →
            q.status = "closed" ∧ q.closed_at = some now) ∧
         s'.votes = s.votes) := by
  constructor
  · intro hq
    unfold close
    rw [hq]
  · intro p ps hq
    unfold close
    rw [hq]
    dsimp only
    refine ⟨_, rfl, ?_, rfl⟩
    intro q hq2 hid
    obtain ⟨q0, hq0, rfl⟩ := List.mem_map.1 hq2
    by_cases h0 : q0._id = p._id
    · simp [h0]
    · rw [if_neg h0] at hid ⊢
      exact absurd hid h0

/-- Witness for C4 (amended): a missing id fails with not-found, and
re-closing the closed poll succeeds with the fields set. -/
theorem close_spec_witness :
    close emptyStore "nope" "t" = .error (.notFound "Poll not found") ∧
    ∃ s', close closedStore "p2" "t2" = .ok ("p2", s') ∧
      (∀ q ∈ s'.polls, q._id = closedPoll._id →
         q.status = "closed" ∧ q.closed_at = some "t2") ∧
      s'.votes = closedStore.votes :=
  ⟨(close_spec emptyStore "nope" "t").1 (by decide),
   (close_spec closedStore "p2" "t2").2 closedPoll [] (by decide)⟩

/-- C5 counterexample: `create` performs no duplicate-option and no
empty-after-trim check — both of these succeed. -/
theorem create_accepts_duplicate_options :
    (create emptyStore ⟨"Q", ["A", "A"], none, none⟩ "pX" "t0").isOk = true ∧
    (create emptyStore ⟨"Q", ["A", " "], none, none⟩ "pX" "t0").isOk = true := by
  decide

/-- C5 (amended): creation fails with `BadRequestException` exactly for an
empty question, fewer than 2 options, or more than 10 options (duplicates
and empty-after-trim options are accepted); on success the stored poll has
the question and each option whitespace-trimmed, status active, and
category defaulting to "General" when unset. -/
theorem create_spec (s : Store) (dto : CreatePollDto) (newId now : String) :
    (dto.question = "" →
       create s dto newId now = .error (.badRequest "Question is required")) ∧
    (dto.question ≠ "" → dto.options.length < 2 →
       create s dto newId now =
         .error (.badRequest "At least 2 options are required")) ∧
    (dto.question ≠ "" → ¬dto.options.length < 2 → dto.options.length > 10 →
       create s dto newId now =
         .error (.badRequest "Maximum 10 options allowed")) ∧
    (dto.question ≠ "" → ¬dto.options.length < 2 → ¬dto.options.length > 10 →
       ∃ p s', create s dto newId now = .ok (p, s') ∧
         p.question = jsTrim dto.question ∧
         p.options = dto.options.map jsTrim ∧
         p.status = "active" ∧
         (dto.category = none → p.category = "General") ∧
         s'.polls = s.polls ++ [p] ∧ s'.votes = s.votes) := by
  refine ⟨fun h1 => ?_, fun h1 h2 => ?_, fun h1 h2 h3 => ?_,
    fun h1 h2 h3 => ?_⟩
  · unfold create; rw [if_pos h1]
  · unfold create; rw [if_neg h1, if_pos h2]
  · unfold create; rw [if_neg h1, if_neg h2, if_pos h3]
  · unfold create
    rw [if_neg h1, if_neg h2, if_neg h3]
    refine ⟨_, _, rfl, rfl, rfl, rfl, fun hc => ?_, rfl, rfl⟩
    rw [hc]

/-- Witness for C5 (amended): a valid creation stores the trimmed fields
with the defaults. -/
theorem create_spec_witness :
    ∃ p s', create emptyStore ⟨" Q ", ["A", " B "], none, none⟩ "p9" "t9" =
        .ok (p, s') ∧
      p.question = jsTrim " Q " ∧
      p.options = ["A", " B "].map jsTrim ∧
      p.status = "active" ∧
      ((none : Option String) = none → p.category = "General") ∧
      s'.polls = emptyStore.polls ++ [p] ∧ s'.votes = emptyStore.votes :=
  (create_spec emptyStore ⟨" Q ", ["A", " B "], none, none⟩ "p9" "t9").2.2.2
    (by decide) (by decide) (by decide)

set_option maxRecDepth 4000 in
/-- The vote list of `bigStore` has pairwise distinct `_id`s. -/
theorem bigStore_votes_nodup : (bigStore.votes.map Vote._id).Nodup := by
  have hfun : Vote._id ∘ bigVote = fun i => i + 1 := rfl
  have h : bigStore.votes.map Vote._id =
      (List.range 1001).map (fun i => i + 1) := by
    show ((List.range 1001).map bigVote).map Vote._id = _
    rw [List.map_map, hfun]
  rw [h]
  exact List.Nodup.map (fun a b hab => by omega) (List.nodup_range 1001)

set_option maxRecDepth 4000 in
/-- Every vote of `bigStore` references `demoPoll`. -/
theorem bigStore_votes_all_p1 :
    ∀ v ∈ bigStore.votes, (v.poll_id == "p1") = true := by
  intro v hv
  obtain ⟨i, -, rfl⟩ := List.mem_map.1 hv
  rfl

set_option maxRecDepth 4000 in
/-- C6 counterexample: with 1001 stored votes on the poll, `remove` only
deletes the 1000 votes its limit-1000 query returned — afterwards
`findByPoll` is not empty. -/
theorem remove_leaves_votes_beyond_limit :
    ∃ n s', remove bigStore "p1" = .ok (n, s') ∧
      s'.votes.filter (fun v => v.poll_id == "p1") ≠ [] := by
  have hfilter : bigStore.votes.filter (fun v => v.poll_id == "p1") =
      bigStore.votes :=
    List.filter_eq_self.mpr bigStore_votes_all_p1
  have hquery : queryVotesByPoll bigStore "p1" 1000 =
      bigStore.votes.take 1000 := by
    unfold queryVotesByPoll
    rw [hfilter]
  have hpoll : queryPollsById bigStore "p1" 1 = [demoPoll] := by decide
  unfold remove
  rw [hpoll]
  dsimp only
  refine ⟨_, _, rfl, ?_⟩
  rw [foldl_delete_eq_filter_all, hquery,
    filter_all_take_eq_drop _ 1000 bigStore_votes_nodup]
  have hmem : ∀ v ∈ bigStore.votes.drop 1000, (v.poll_id == "p1") = true :=
    fun v hv => bigStore_votes_all_p1 v (List.mem_of_mem_drop hv)
  rw [List.filter_eq_self.mpr hmem]
  intro hnil
  have hlen := congrArg List.length hnil
  rw [List.length_drop] at hlen
  have h1001 : bigStore.votes.length = 1001 := by
    show ((List.range 1001).map bigVote).length = 1001
    rw [List.length_map, List.length_range]
  rw [h1001] at hlen
  simp at hlen

/-- C6 (amended): `remove` on a missing id fails with `NotFoundException`;
on an existing poll it deletes the votes returned by its limit-1000 query
and the poll record, returning the number of votes removed — when the poll
has at most 1000 votes this is every vote referencing it, and `findByPoll`
is empty afterwards. -/
theorem remove_spec (s : Store) (id : String) :
    (queryPollsById s id 1 = [] →
       remove s id = .error (.notFound "Poll not found")) ∧
    (∀ p ps, queryPollsById s id 1 = p :: ps →
       (s.votes.filter (fun v => v.poll_id == id)).length ≤ 1000 →
       ∃ s', remove s id =
           .ok ((s.votes.filter (fun v => v.poll_id == id)).length, s') ∧
         s'.votes.filter (fun v => v.poll_id == id) = [] ∧
         (∀ q ∈ s'.polls, q._id ≠ p._id)) := by
  constructor
  · intro hq
    unfold remove
    rw [hq]
  · intro p ps hq hle
    have htake : queryVotesByPoll s id 1000 =
        s.votes.filter (fun v => v.poll_id == id) := by
      unfold queryVotesByPoll
      exact List.take_of_length_le hle
    unfold remove
    rw [hq]
    dsimp only
    refine ⟨_, by rw [htake], ?_, ?_⟩
    · rw [foldl_delete_eq_filter_all]
      exact filter_all_self_filter_eq_nil s.votes _
    · intro q hq2
      have := (List.mem_filter.1 hq2).2
      simpa using this

/-- Witness for C6 (amended): removing `demoPoll` from `demoStore` (two
votes, below the limit) deletes both votes and the poll. -/
theorem remove_spec_witness :
    ∃ s', remove demoStore "p1" =
        .ok ((demoStore.votes.filter (fun v => v.poll_id == "p1")).length, s') ∧
      s'.votes.filter (fun v => v.poll_id == "p1") = [] ∧
      (∀ q ∈ s'.polls, q._id ≠ demoPoll._id) :=
  (remove_spec demoStore "p1").2 demoPoll [] (by decide) (by decide)

/-- C7: `findOne` computes percentages with an explicit zero-total guard —
for a zero vote total every option's percentage is 0 and the division is
never evaluated; for a positive total each declared option's percentage is
the rounded value `round(100 * count / total)` (`Math.round`, idealised as
exact round-half-up). -/
theorem percentages_zero_safe (s : Store) :
    ∀ id r, findOne s id = .ok r →
      (r.total_votes = 0 →
         ∀ o ∈ r.poll.options, objGet r.vote_percentages o = some 0) ∧
      (0 < r.total_votes →
         ∀ o ∈ r.poll.options,
           objGet r.vote_percentages o =
             some (roundPercent ((objGet r.vote_counts o).getD 0)
               r.total_votes)) := by
  intro id r h
  unfold findOne at h
  cases hq : queryPollsById s id 1 with
  | nil => rw [hq] at h; cases h
  | cons p ps =>
    rw [hq] at h
    simp only [Except.ok.injEq] at h
    subst h
    constructor
    · intro h0 o ho
      simp only at h0 ho ⊢
      rw [objGet_percentagesMap, if_pos ho, h0]
      simp
    · intro hpos o ho
      simp only at hpos ho ⊢
      rw [objGet_percentagesMap, if_pos ho, if_pos hpos]

/-- Witness for C7: the zero-total store yields percentage 0 for option
"A", and in `demoStore` (total 2, count 1) option "A" gets the rounded
50. -/
theorem percentages_zero_safe_witness :
    objGet noVotesView.vote_percentages "A" = some 0 ∧
    objGet demoView.vote_percentages "A" =
      some (roundPercent ((objGet demoView.vote_counts "A").getD 0)
        demoView.total_votes) :=
  ⟨((percentages_zero_safe noVotesStore "p1" noVotesView (by decide)).1
      (by decide) "A" (by decide)),
   ((percentages_zero_safe demoStore "p1" demoView (by decide)).2
      (by decide) "A" (by decide))⟩

/-- C8: the tally initialises every declared option to 0; its key set is
exactly the declared options; and a vote whose option is not declared is
silently ignored — it changes no counter and the computation is total (no
error). -/
theorem tally_ignores_unknown_options (opts : List String)
    (votes : List Vote) (v : Vote) (k : String) :
    (∀ o ∈ opts, objGet (initCounts opts) o = some 0) ∧
    ((objGet (tallyCounts opts votes) k).isSome = true ↔ k ∈ opts) ∧
    (v.option ∉ opts →
       tallyCounts opts (votes ++ [v]) = tallyCounts opts votes) := by
  refine ⟨?_, ?_, ?_⟩
  · intro o ho
    rw [objGet_initCounts, if_pos ho]
  · rw [objGet_tallyCounts_isSome]
    simp
  · intro hv
    unfold tallyCounts
    rw [List.foldl_append]
    simp only [List.foldl_cons, List.foldl_nil]
    have hnone : objGet
        (votes.foldl (fun m v => tallyStep m v.option) (initCounts opts))
        v.option = none := by
      have h2 := objGet_foldl_tallyStep_isSome votes (initCounts opts) v.option
      rw [objGet_initCounts, if_neg hv] at h2
      cases hcase : objGet
          (votes.foldl (fun m v => tallyStep m v.option) (initCounts opts))
          v.option with
      | none => rfl
      | some n => rw [hcase] at h2; simp at h2
    show tallyStep _ v.option = _
    unfold tallyStep at hnone ⊢
    rw [hnone]

/-- Witness for C8: appending the stray-option vote to `demoStore`'s votes
leaves the tally unchanged. -/
theorem tally_ignores_unknown_options_witness :
    tallyCounts ["A", "B"] (demoStore.votes ++ [strayVote]) =
      tallyCounts ["A", "B"] demoStore.votes :=
  (tally_ignores_unknown_options ["A", "B"] demoStore.votes strayVote
    "A").2.2 (by decide)

/-- C9: the category summary is the union (as insertion-ordered sets) of
the fixed default category list with every observed category; each name is
paired with the number of polls whose effective category (missing counted
as "General") equals it, so a non-default name appears only with count at
least 1; on zero polls the result is exactly the default list, each with
count 0, and `total_polls` 0. -/
theorem categories_spec (polls : List Poll) :
    (∀ s : Store, s.polls = [] →
       getCategories s = (DEFAULT_CATEGORIES.map fun n => (n, 0), 0)) ∧
    (∀ name cnt, (name, cnt) ∈ (categorySummary polls).1 →
       cnt = (polls.filter fun p => effCat p == name).length ∧
       (name ∈ DEFAULT_CATEGORIES ∨ 1 ≤ cnt)) ∧
    (∀ name, (∃ cnt, (name, cnt) ∈ (categorySummary polls).1) ↔
       (name ∈ DEFAULT_CATEGORIES ∨ name ∈ polls.map effCat)) ∧
    (categorySummary polls).2 = polls.length := by
  have hmemAll : ∀ x,
      x ∈ jsDedup (DEFAULT_CATEGORIES ++ jsDedup (polls.map effCat)) ↔
        x ∈ DEFAULT_CATEGORIES ∨ x ∈ polls.map effCat := by
    intro x
    rw [mem_jsDedup, List.mem_append, mem_jsDedup]
  have hinit : ∀ name,
      name ∈ jsDedup (DEFAULT_CATEGORIES ++ jsDedup (polls.map effCat)) →
      objGet ((jsDedup (DEFAULT_CATEGORIES ++ jsDedup (polls.map effCat))).foldl
          (fun m c => objSet m c 0) []) name = some 0 := by
    intro name hname
    rw [objGet_foldl_objSet (fun _ => 0), if_pos hname]
  have hcount : ∀ name,
      name ∈ jsDedup (DEFAULT_CATEGORIES ++ jsDedup (polls.map effCat)) →
      objGet (polls.foldl
          (fun m p => objSet m (effCat p) ((objGet m (effCat p)).getD 0 + 1))
          ((jsDedup (DEFAULT_CATEGORIES ++ jsDedup (polls.map effCat))).foldl
            (fun m c => objSet m c 0) [])) name =
        some ((polls.map effCat).count name) := by
    intro name hname
    rw [objGet_foldl_incr]
    rw [if_pos (Or.inl (by rw [hinit name hname]; rfl))]
    rw [hinit name hname]
    simp
  have hcnt_filter : ∀ name, (polls.map effCat).count name =
      (polls.filter fun p => effCat p == name).length := by
    intro name
    rw [List.count, List.countP_map, List.countP_eq_length_filter]
    rfl
  refine ⟨?_, ?_, ?_, rfl⟩
  · intro s hs
    unfold getCategories
    rw [hs]
    decide
  · intro name cnt hmem
    simp only [categorySummary] at hmem
    obtain ⟨n, hn, heq⟩ := List.mem_map.1 hmem
    rw [Prod.ext_iff] at heq
    obtain ⟨h1, h2⟩ := heq
    subst h1
    subst h2
    constructor
    · rw [hcount n hn]
      simp only [Option.getD_some]
      exact hcnt_filter n
    · rcases (hmemAll n).1 hn with hd | hm
      · exact Or.inl hd
      · right
        rw [hcount n hn]
        simp only [Option.getD_some]
        exact List.count_pos_iff.2 hm
  · intro name
    constructor
    · rintro ⟨cnt, hmem⟩
      simp only [categorySummary] at hmem
      obtain ⟨n, hn, heq⟩ := List.mem_map.1 hmem
      rw [Prod.ext_iff] at heq
      obtain ⟨h1, -⟩ := heq
      subst h1
      exact (hmemAll n).1 hn
    · intro h
      have hname := (hmemAll name).2 h
      simp only [categorySummary]
      exact ⟨_, List.mem_map_of_mem _ hname⟩

/-- Witness for C9: the empty store yields the defaults with count 0, and
in a one-poll store the "General" entry has count 1. -/
theorem categories_spec_witness :
    getCategories emptyStore = (DEFAULT_CATEGORIES.map fun n => (n, 0), 0) ∧
    (1 = ([demoPoll].filter fun p => effCat p == "General").length ∧
      ("General" ∈ DEFAULT_CATEGORIES ∨ 1 ≤ 1)) :=
  ⟨(categories_spec []).1 emptyStore rfl,
   (categories_spec [demoPoll]).2.1 "General" 1 (by decide)⟩

theorem filter_comm_votes (p q : Vote → Bool) (l : List Vote) :
    (l.filter q).filter p = (l.filter p).filter q := by
  rw [List.filter_filter, List.filter_filter]
  exact List.filter_congr fun a _ => Bool.and_comm _ _

theorem vote_ok_result_inv {s : Store} {id : String} {dto : VoteDto}
    {newId now : String} {r : VoteResult} {s' : Store}
    (h : vote s id dto newId now = .ok (r, s')) :
    r.total_votes = (queryVotesByPoll s' id 1000).length := by
  unfold vote at h
  split_ifs at h with h1 h2
  cases hq : queryPollsById s id 1 with
  | nil => rw [hq] at h; cases h
  | cons p ps =>
    rw [hq] at h
    dsimp only at h
    by_cases hst : p.status ≠ "active"
    · rw [if_pos hst] at h; cases h
    · rw [if_neg hst] at h
      by_cases hop : dto.option ∉ p.options
      · rw [if_pos hop] at h; cases h
      · rw [if_neg hop] at h
        cases he : queryVotesByPollVoter s id dto.voter_id 1 with
        | cons e es => rw [he] at h; cases h
        | nil =>
          rw [he] at h
          simp only [Except.ok.injEq, Prod.mk.injEq] at h
          obtain ⟨hr, rfl⟩ := h
          rw [← hr]

/-- C10: every vote read is capped at 1000 records — `findOne` and
`findAll` report `total_votes` and tallies over at most the first 1000
matching votes, `vote` re-tallies over the same capped query, and `remove`
deletes only the first 1000 returned votes, leaving the remainder (the
drop beyond 1000) in the store. -/
theorem limit1000_caps_vote_reads (s : Store) :
    (∀ id r, findOne s id = .ok r →
       r.total_votes =
         ((s.votes.filter fun v => v.poll_id == id).take 1000).length ∧
       r.vote_counts = tallyCounts r.poll.options
         ((s.votes.filter fun v => v.poll_id == id).take 1000)) ∧
    (∀ e ∈ findAll s,
       e.total_votes =
         ((s.votes.filter fun v => v.poll_id == e.poll.id).take 1000).length ∧
       e.vote_counts = tallyCounts e.poll.options
         ((s.votes.filter fun v => v.poll_id == e.poll.id).take 1000)) ∧
    (∀ id dto newId now r s', vote s id dto newId now = .ok (r, s') →
       r.total_votes =
         ((s'.votes.filter fun v => v.poll_id == id).take 1000).length) ∧
    (∀ id p ps, queryPollsById s id 1 = p :: ps →
       (s.votes.map Vote._id).Nodup →
       ∃ s', remove s id =
           .ok (((s.votes.filter fun v => v.poll_id == id).take 1000).length,
             s') ∧
         s'.votes.filter (fun v => v.poll_id == id) =
           (s.votes.filter fun v => v.poll_id == id).drop 1000) := by
  refine ⟨?_, ?_, ?_, ?_⟩
  · intro id r h
    unfold findOne at h
    cases hq : queryPollsById s id 1 with
    | nil => rw [hq] at h; cases h
    | cons p ps =>
      rw [hq] at h
      simp only [Except.ok.injEq] at h
      subst h
      exact ⟨rfl, rfl⟩
  · intro e he
    unfold findAll at he
    obtain ⟨p, hp, rfl⟩ := List.mem_map.1 he
    exact ⟨rfl, rfl⟩
  · intro id dto newId now r s' h
    exact vote_ok_result_inv h
  · intro id p ps hq hnodup
    unfold remove
    rw [hq]
    dsimp only
    refine ⟨_, rfl, ?_⟩
    rw [foldl_delete_eq_filter_all, filter_comm_votes]
    have hsub : ((s.votes.filter fun v => v.poll_id == id).map Vote._id).Nodup :=
      List.Nodup.sublist ((List.filter_sublist s.votes).map Vote._id) hnodup
    rw [show queryVotesByPoll s id 1000 =
        (s.votes.filter fun v => v.poll_id == id).take 1000 from rfl]
    exact filter_all_take_eq_drop _ 1000 hsub

/-- Witness for C10 at `demoStore`: the `findOne` view and the deletion
residue both match the capped queries. -/
theorem limit1000_caps_vote_reads_witness :
    (demoView.total_votes =
       ((demoStore.votes.filter fun v => v.poll_id == "p1").take 1000).length ∧
     demoView.vote_counts = tallyCounts demoView.poll.options
       ((demoStore.votes.filter fun v => v.poll_id == "p1").take 1000)) ∧
    (∃ s', remove demoStore "p1" =
        .ok (((demoStore.votes.filter
          fun v => v.poll_id == "p1").take 1000).length, s') ∧
      s'.votes.filter (fun v => v.poll_id == "p1") =
        (demoStore.votes.filter fun v => v.poll_id == "p1").drop 1000) :=
  ⟨(limit1000_caps_vote_reads demoStore).1 "p1" demoView (by decide),
   (limit1000_caps_vote_reads demoStore).2.2.2 "p1" demoPoll [] (by decide)
     (by decide)⟩

end NexaPolls
